import Mathlib

/-!
# Verification of the jaenvtix runtime-provisioning pipeline

Shallow embedding of `src/jaenvtix_setup.py`: the version resolver, the
distribution catalog, the resilient fetcher, the archive installer, the
runtime acquirer with multi-candidate fallback, the config merger
(toolchains registry and per-project editor settings) and the
chain-of-responsibility orchestrator.  External effects (network, the
archive bytes, the pre-existing filesystem) are parameters of the
definitions; everything the Python source computes is translated
directly.  String primitives of the source (`str.strip`, `str.split`,
`str.startswith`, `str.isdigit` on ASCII data) are modelled structurally
on `List Char` so that all definitions reduce in the kernel.
-/

namespace Jaenvtix

/-! ## String primitives (Python semantics, on `List Char`) -/

/-- Python `str.strip()`: drop leading and trailing whitespace. -/
def pyStrip (l : List Char) : List Char :=
  ((l.dropWhile Char.isWhitespace).reverse.dropWhile Char.isWhitespace).reverse

/-- Python `s.split(".")`: split at every dot, keeping empty components. -/
def splitDot : List Char → List (List Char)
  | [] => [[]]
  | c :: rest =>
    if c = '.' then [] :: splitDot rest
    else
      match splitDot rest with
      | h :: t => (c :: h) :: t
      | [] => [[c]]

/-- Python `str.isdigit` on the ASCII data the source feeds it: nonempty
and all digit characters. -/
def isDigitRunL (l : List Char) : Bool := !l.isEmpty && l.all Char.isDigit

/-! ## Version resolver (`normalize_java_version`) -/

/-- The regex `^(\d{1,2})` of the source: the first one or two leading
digit characters, or none when the input does not start with a digit. -/
def leadingDigits2L : List Char → Option (List Char)
  | [] => none
  | c :: rest =>
    if c.isDigit then
      match rest with
      | d :: _ => if d.isDigit then some [c, d] else some [c]
      | [] => some [c]
    else none

/-- The `normalize_java_version` from the source: strip; if the value starts
with `1.` and its second dot-component is a digit run, return that
component; otherwise return the match of `^(\d{1,2})`; otherwise no
result. -/
def normalize_java_version (v : String) : Option String :=
  let w := pyStrip v.data
  (match w with
   | c1 :: c2 :: _ =>
     if c1 = '1' ∧ c2 = '.' then
       match (splitDot w).get? 1 with
       | some p => if isDigitRunL p then some p else leadingDigits2L w
       | none => leadingDigits2L w
     else leadingDigits2L w
   | _ => leadingDigits2L w).map String.mk

/-- The amended reading of the legacy rule, in the claim's own terms: the
stripped value is `1.` followed by a nonempty digit run that is either
the whole remainder or is terminated by a dot (i.e. the second
dot-separated component is a digit run). -/
def legacyForm (w : List Char) : Prop :=
  ∃ N rest, w = '1' :: '.' :: (N ++ rest) ∧ isDigitRunL N = true ∧
    (rest = [] ∨ ∃ r, rest = '.' :: r)

/-! ## Distribution catalog (`JdkDist`, URL builders, `JDK_URLS`, `select_jdk_dist`) -/

/-- The `JdkDist` dataclass: name, artifact URL, archive extension. -/
structure JdkDist where
  name : String
  url : String
  ext : String
deriving DecidableEq

/-- The `oracle_latest_url`: platform fragment table and URL template. -/
def oracle_latest_url (java_version os_name arch : String) : Option (String × String) :=
  let fragment : Option (String × String) :=
    if os_name = "windows" ∧ arch = "x86_64" then some ("windows-x64", "zip")
    else if os_name = "linux" ∧ arch = "x86_64" then some ("linux-x64", "tar.gz")
    else if os_name = "linux" ∧ arch = "aarch64" then some ("linux-aarch64", "tar.gz")
    else if os_name = "macos" ∧ arch = "x86_64" then some ("macos-x64", "tar.gz")
    else if os_name = "macos" ∧ arch = "aarch64" then some ("macos-aarch64", "tar.gz")
    else none
  fragment.map fun pe =>
    ("https://download.oracle.com/java/" ++ java_version ++ "/latest/jdk-" ++ java_version
      ++ "_" ++ pe.1 ++ "_bin." ++ pe.2, pe.2)

/-- The `oracle_latest_dist`; the source raises `ValueError` when no mapping
exists and every caller catches and skips it, hence `Option`. -/
def oracle_latest_dist? (java_version os_name arch : String) : Option JdkDist :=
  (oracle_latest_url java_version os_name arch).map fun ue =>
    ⟨"Oracle" ++ java_version, ue.1, ue.2⟩

/-- The `temurin_latest_url`. -/
def temurin_latest_url (java_version os_name arch : String) : Option (String × String) :=
  let os_fragment : Option String :=
    if os_name = "windows" then some "windows"
    else if os_name = "linux" then some "linux"
    else if os_name = "macos" then some "mac"
    else none
  let arch_fragment : Option String :=
    if arch = "x86_64" then some "x64"
    else if arch = "aarch64" then some "aarch64"
    else none
  match os_fragment, arch_fragment with
  | some osf, some archf =>
    let ext := if os_name = "windows" then "zip" else "tar.gz"
    some ("https://api.adoptium.net/v3/binary/latest/" ++ java_version ++ "/ga/" ++ osf
      ++ "/" ++ archf ++ "/jdk/hotspot/normal/eclipse", ext)
  | _, _ => none

/-- The `temurin_latest_dist` (Option-valued, as for Oracle). -/
def temurin_latest_dist? (java_version os_name arch : String) : Option JdkDist :=
  (temurin_latest_url java_version os_name arch).map fun ue =>
    ⟨"Temurin" ++ java_version, ue.1, ue.2⟩

/-- The `corretto_latest_url`. -/
def corretto_latest_url (java_version os_name arch : String) : Option (String × String) :=
  let os_fragment : Option String :=
    if os_name = "windows" then some "windows"
    else if os_name = "linux" then some "linux"
    else if os_name = "macos" then some "macos"
    else none
  let arch_fragment : Option String :=
    if arch = "x86_64" then some "x64"
    else if arch = "aarch64" then some "aarch64"
    else none
  match os_fragment, arch_fragment with
  | some osf, some archf =>
    let ext := if os_name = "windows" then "zip" else "tar.gz"
    some ("https://corretto.aws/downloads/latest/amazon-corretto-" ++ java_version
      ++ "-" ++ archf ++ "-" ++ osf ++ "-jdk." ++ ext, ext)
  | _, _ => none

/-- The `corretto_latest_dist` (Option-valued, as for Oracle). -/
def corretto_latest_dist? (java_version os_name arch : String) : Option JdkDist :=
  (corretto_latest_url java_version os_name arch).map fun ue =>
    ⟨"Corretto" ++ java_version, ue.1, ue.2⟩

/-- The five (os, arch) combinations enumerated for every version key of
the static `JDK_URLS` table. -/
def staticCombos : List (String × String) :=
  [("windows", "x86_64"), ("linux", "x86_64"), ("linux", "aarch64"),
   ("macos", "x86_64"), ("macos", "aarch64")]

/-- The `JDK_URLS.get(java_version, {}).get((os_name, arch))`.  For versions
8/11/17 each listed combo holds `[corretto, temurin]`; for 21/25 it holds
`[oracle]`.  On the combos of `staticCombos` every builder returns
`some`, so the `toList` concatenations below are exactly the two-element
(resp. one-element) lists of the source table. -/
def JDK_URLS_get (java_version os_name arch : String) : Option (List JdkDist) :=
  if (java_version = "8" ∨ java_version = "11" ∨ java_version = "17")
      ∧ (os_name, arch) ∈ staticCombos then
    some ((corretto_latest_dist? java_version os_name arch).toList
      ++ (temurin_latest_dist? java_version os_name arch).toList)
  else if (java_version = "21" ∨ java_version = "25") ∧ (os_name, arch) ∈ staticCombos then
    some ((oracle_latest_dist? java_version os_name arch).toList)
  else none

/-- The `select_jdk_dist`: static table first; when it yields nothing,
synthesize dynamically — Oracle latest only for versions outside
`{"8","11","17"}`, then Corretto, then Temurin, silently skipping any
builder without a mapping (`ValueError` caught in the source). -/
def select_jdk_dist (java_version os_name arch : String) : List JdkDist :=
  let candidates := (JDK_URLS_get java_version os_name arch).getD []
  if candidates.isEmpty then
    (if ¬(java_version = "8" ∨ java_version = "11" ∨ java_version = "17") then
       (oracle_latest_dist? java_version os_name arch).toList
     else [])
    ++ (corretto_latest_dist? java_version os_name arch).toList
    ++ (temurin_latest_dist? java_version os_name arch).toList
  else candidates

/-- The `MAVEN_URLS` lookup: version → os → url. -/
def MAVEN_URLS_get (version os_name : String) : Option String :=
  if version = "3.9.11" then
    if os_name = "windows" then
      some "https://dlcdn.apache.org/maven/maven-3/3.9.11/binaries/apache-maven-3.9.11-bin.zip"
    else if os_name = "linux" ∨ os_name = "macos" then
      some "https://dlcdn.apache.org/maven/maven-3/3.9.11/binaries/apache-maven-3.9.11-bin.tar.gz"
    else none
  else none

/-- The `DEFAULT_MAVEN_VERSION`. -/
def DEFAULT_MAVEN_VERSION : String := "3.9.11"

/-- The `_resolve_maven_distro`: URL for the configured Maven version plus
the extension derived from the OS. -/
def _resolve_maven_distro (os_name : String) : Option (String × String) :=
  match MAVEN_URLS_get DEFAULT_MAVEN_VERSION os_name with
  | none => none
  | some url => some (url, if os_name = "windows" then "zip" else "tar.gz")

/-! ## Resilient fetcher (`download_with_retries`, `_download_maven_distribution`)

The network is a parameter: `outcome i` says what attempt number `i`
does.  `ok size` — the stream was copied fully and the destination holds
`size` bytes.  `err msg written` — the attempt raised `msg`; `written =
some w` means the attempt had already opened (truncated) the destination
and left `w` bytes there, `written = none` means the exception fired
before the destination was opened, leaving it untouched. -/

/-- Outcome of one download attempt (environment-chosen). -/
inductive AttemptResult where
  | ok (size : ℕ)
  | err (msg : String) (written : Option ℕ)
deriving DecidableEq

/-- Result of `download_with_retries`: return value, number of attempts
made, the sleeps performed in order, the last error observed, and the
size of the destination file afterwards (`none` = no file). -/
structure FetchResult where
  success : Bool
  tried : ℕ
  sleeps : List ℚ
  lastErr : Option String
  dest : Option ℕ
deriving DecidableEq

/-- The `for i in range(1, attempts + 1)` loop of
`download_with_retries`: on success return immediately; on failure
record the error, sleep `backoff ** i`, and continue.  `k` is the number
of attempts left, `i` the next attempt number. -/
def dwrGo (outcome : ℕ → AttemptResult) (backoff : ℚ) :
    ℕ → ℕ → Option String → Option ℕ → FetchResult
  | 0, _, last, dest => ⟨false, 0, [], last, dest⟩
  | k + 1, i, last, dest =>
    match outcome i with
    | .ok size => ⟨true, 1, [], last, some size⟩
    | .err msg written =>
      let dest' := match written with
        | some w => some w
        | none => dest
      let r := dwrGo outcome backoff k (i + 1) (some msg) dest'
      ⟨r.success, r.tried + 1, backoff ^ i :: r.sleeps, r.lastErr, r.dest⟩

/-- The `download_with_retries(url, dest, attempts, backoff)`; the source
defaults are `attempts = 3`, `backoff = 1.5`.  `dest0` is the prior
state of the destination file.  Note the loop body sleeps after every
failed attempt — including the last — and nothing after the loop deletes
or truncates the destination. -/
def download_with_retries (outcome : ℕ → AttemptResult) (dest0 : Option ℕ)
    (attempts : ℕ) (backoff : ℚ) : FetchResult :=
  dwrGo outcome backoff attempts 1 none dest0

/-- The `_download_maven_distribution`: reuse a pre-existing non-empty
archive without fetching; otherwise call the fetcher with the default
attempt count and backoff.  Returns (result, whether the network was
used, final archive state). -/
def _download_maven_distribution (outcome : ℕ → AttemptResult) (dest0 : Option ℕ) :
    Bool × Bool × Option ℕ :=
  match dest0 with
  | some s =>
    if s > 0 then (true, false, some s)
    else
      let r := download_with_retries outcome (some s) 3 (3 / 2)
      (r.success, true, r.dest)
  | none =>
    let r := download_with_retries outcome none 3 (3 / 2)
    (r.success, true, r.dest)

/-! ## Toolchains registry merger (`merge_toolchains`)

The registry document is modelled as the list of its `<toolchain>`
elements.  `version = some t`: the entry has a `<provides>` child and
`t` is what `find_first_text(prov, ["version"]) or ""` reads back
(`""` when the `<version>` child is missing); `version = none`: no
`<provides>` child, the scan skips the entry.  `config = some h?`: the
entry has a `<configuration>` child whose `<jdkHome>` text is `h?`
(`none` when the `<jdkHome>` node is absent); `config = none`: no
`<configuration>` child — the source then falls through WITHOUT
returning and keeps scanning.  The `except` branch that wholesale
replaces a malformed document is outside this model (we only consider
parseable documents). -/

/-- One `<toolchain>` element of `toolchains.xml`. -/
structure ToolchainEntry where
  version : Option String
  config : Option (Option String)
deriving DecidableEq

/-- The `pyStrip` on strings (Python `str.strip()`). -/
def pyStripS (s : String) : String := String.mk (pyStrip s.data)

/-- The scan `v.strip() == java_version` guarded by the presence of a
`<provides>` element (`find_first_text` already strips the text it
returns; the model keeps the raw text and strips here). -/
def tcMatches (java_version : String) (e : ToolchainEntry) : Bool :=
  match e.version with
  | some v => pyStripS v = java_version
  | none => false

/-- The entry written by the `template` string of `merge_toolchains`. -/
def tcTemplate (java_version java_home : String) : ToolchainEntry :=
  ⟨some java_version, some (some java_home)⟩

/-- The scan loop of `merge_toolchains`: find the first entry whose
declared version matches AND that has a `<configuration>` child, set its
`jdkHome` to `java_home` and return (`some` = updated in place);
`none` = the loop fell through. -/
def mergeEntries (java_version java_home : String) :
    List ToolchainEntry → Option (List ToolchainEntry)
  | [] => none
  | e :: rest =>
    if tcMatches java_version e then
      match e.config with
      | some _ => some ({ e with config := some (some java_home) } :: rest)
      | none => (mergeEntries java_version java_home rest).map (e :: ·)
    else (mergeEntries java_version java_home rest).map (e :: ·)

/-- The `merge_toolchains`: nonexistent file → write the single-entry
template document; otherwise update in place when the scan finds a
matching entry, else append a new entry. -/
def merge_toolchains (java_version java_home : String) :
    Option (List ToolchainEntry) → List ToolchainEntry
  | none => [tcTemplate java_version java_home]
  | some es =>
    match mergeEntries java_version java_home es with
    | some es' => es'
    | none => es ++ [tcTemplate java_version java_home]

/-- A sequence of `merge_toolchains` calls starting from a nonexistent
registry file (`none`). -/
def runMerges (calls : List (String × String)) : Option (List ToolchainEntry) :=
  calls.foldl (fun st c => some (merge_toolchains c.1 c.2 st)) none

/-- Number of `<toolchain>` entries declaring version `x`. -/
def countVersion (es : List ToolchainEntry) (x : String) : ℕ :=
  (es.filter (fun e => e.version = some x)).length

/-- Registry documents reachable by `merge_toolchains` alone: every
entry declares a trimmed version and has a `<configuration>` child, and
no version is declared twice. -/
def TcInv (es : List ToolchainEntry) : Prop :=
  (∀ e ∈ es, (∃ v, e.version = some v ∧ pyStripS v = v) ∧ e.config ≠ none)
  ∧ ∀ x, countVersion es x ≤ 1

/-! ## Editor settings (`as_vscode_user_path`, `update_vscode_settings`) -/

/-- Python `str.startswith` on character lists. -/
def strStartsWithL : List Char → List Char → Bool
  | _, [] => true
  | [], _ :: _ => false
  | c :: t, p :: ps => c = p && strStartsWithL t ps

/-- The `as_vscode_user_path`: plain string-prefix comparison on the POSIX
forms; `target_posix.replace(home_posix, "${userHome}", 1)` under the
`startswith` guard is placeholder-plus-suffix. -/
def as_vscode_user_path (home target : String) : String :=
  if strStartsWithL target.data home.data then
    String.mk ("${userHome}".data ++ target.data.drop home.data.length)
  else target

/-- JSON values appearing in the settings object (the merge writes only
strings and booleans; pre-existing values of other shapes are opaque to
it, so two constructors suffice for distinguishability). -/
inductive JVal where
  | s (v : String)
  | b (v : Bool)
deriving DecidableEq

/-- The `update_vscode_settings`, as a transformation of the parsed settings
object (the parse-failure fallback `data = {}` is the caller passing an
empty map).  `home` is `HOME.as_posix()`; the user-settings path is
`M2_DIR / "settings.xml"`, i.e. `home ++ "/.m2/settings.xml"`.  The
source pops `java.home`, then assigns the seven keys below. -/
def update_vscode_settings (home : String) (data : String → Option JVal)
    (java_home maven_bin : String) : String → Option JVal :=
  let java_home_path := as_vscode_user_path home java_home
  let maven_bin_path := as_vscode_user_path home maven_bin
  let user_settings_path := as_vscode_user_path home (home ++ "/.m2/settings.xml")
  fun k =>
    if k = "java.jdt.ls.java.home" then some (.s java_home_path)
    else if k = "java.jdt.ls.lombokSupport.enabled" then some (.b true)
    else if k = "maven.executable.preferMavenWrapper" then some (.b true)
    else if k = "maven.executable.path" then some (.s maven_bin_path)
    else if k = "java.compile.nullAnalysis.mode" then some (.s "automatic")
    else if k = "java.configuration.updateBuildConfiguration" then some (.s "automatic")
    else if k = "java.configuration.maven.userSettings" then some (.s user_settings_path)
    else if k = "java.home" then none
    else data k

/-- The keys `update_vscode_settings` assigns. -/
def vscodeAssignedKeys : List String :=
  ["java.jdt.ls.java.home", "java.jdt.ls.lombokSupport.enabled",
   "maven.executable.preferMavenWrapper", "maven.executable.path",
   "java.compile.nullAnalysis.mode", "java.configuration.updateBuildConfiguration",
   "java.configuration.maven.userSettings"]

/-! ## Archive installer directory effect (`_cleanup_old_jdk_content`)

The per-version directory `jdk-<major>` is modelled as the list of its
immediate entries; `content` is the abstract identity of the whole
subtree rooted at the entry (two equal contents = byte-identical
subtrees).  `install_jdk_from_archive`'s effect on this directory is
cleanup followed by extraction; extraction overlays the archive's
top-level entries onto the directory.  The home-discovery scan that
follows reads `isDir`/`hasBin`. -/

/-- An immediate child of the `jdk-<major>` directory. -/
structure DirEntry where
  name : String
  isDir : Bool
  hasBin : Bool
  content : ℕ
deriving DecidableEq

/-- Entry lookup by name (first wins, as in a real directory the names
are unique). -/
def lookupEntry (l : List DirEntry) (n : String) : Option DirEntry :=
  l.find? (fun e => e.name = n)

/-- The `_cleanup_old_jdk_content`: remove every entry except `mvn-custom`
(the removals succeed in the idealized filesystem; the source ignores
removal errors). -/
def _cleanup_old_jdk_content (entries : List DirEntry) : List DirEntry :=
  entries.filter (fun e => e.name = "mvn-custom")

/-- The `extractall` effect at the top level of the target directory: the
archive's entries replace same-named entries and are added otherwise. -/
def extractOverlay (base archive : List DirEntry) : List DirEntry :=
  base.filter (fun e => archive.all (fun a => ¬(a.name = e.name))) ++ archive

/-- The directory-content effect of `install_jdk_from_archive`: mkdir
(no-op on the modelled directory), `_cleanup_old_jdk_content`, then
extraction; `archive = none` models `extract_archive` failing (the
directory stays cleaned).  The subsequent home-discovery scan of the
source returns the first immediate child that is a directory with a
`bin` subdirectory. -/
def install_jdk_from_archive_fs (base : List DirEntry) (archive : Option (List DirEntry)) :
    List DirEntry × Option String :=
  let cleaned := _cleanup_old_jdk_content base
  match archive with
  | none => (cleaned, none)
  | some aentries =>
    let after := extractOverlay cleaned aentries
    (after, (after.find? (fun e => e.isDir && e.hasBin)).map (·.name))

/-! ## Runtime acquirer (`download_jdk_package`, `install_jdk_with_fallback`)

The fetch and install outcomes are environment parameters keyed by
candidate: `fetch d` is the boolean `download_with_retries` returns for
`d.url`, and `install d` is the home `install_jdk_from_archive` yields
from the archive fetched for `d` (`none` = extraction or layout
discovery failed).  Each function also returns the list of candidates
attempted, in order, so that ordering claims are statable. -/

/-- The candidate loop of `download_jdk_package`: first successful fetch
wins; a fetch failure advances to the next candidate.  Returns
(candidates attempted in order, winning candidate).  The empty-candidate
guard `if not candidates: return None` is the `[]` case. -/
def download_jdk_package (fetch : JdkDist → Bool) :
    List JdkDist → List JdkDist × Option JdkDist
  | [] => ([], none)
  | d :: rest =>
    if fetch d then ([d], some d)
    else
      let r := download_jdk_package fetch rest
      (d :: r.1, r.2)

/-- The candidate loop of `install_jdk_with_fallback`: fetch failure or
install failure both advance to the next candidate; the first candidate
that fetches and installs wins. -/
def install_fallback_go (fetch : JdkDist → Bool) (install : JdkDist → Option String) :
    List JdkDist → List JdkDist × Option String
  | [] => ([], none)
  | d :: rest =>
    if fetch d then
      match install d with
      | some h => ([d], some h)
      | none =>
        let r := install_fallback_go fetch install rest
        (d :: r.1, r.2)
    else
      let r := install_fallback_go fetch install rest
      (d :: r.1, r.2)

/-- The `install_jdk_with_fallback`: filter out the `skip` set, then run the
candidate loop (an empty remainder returns the hard failure directly). -/
def install_jdk_with_fallback (fetch : JdkDist → Bool) (install : JdkDist → Option String)
    (skip : List JdkDist) (candidates : List JdkDist) : List JdkDist × Option String :=
  install_fallback_go fetch install (candidates.filter (fun d => decide (d ∉ skip)))

/-- The JDK half of `RuntimeProvisionStep.execute` when no JDK is
present yet: `download_jdk_package`, then `install_jdk_from_archive` on
the fetched candidate, then `install_jdk_with_fallback` skipping that
candidate when the install fails. -/
def provision_jdk (fetch : JdkDist → Bool) (install : JdkDist → Option String)
    (candidates : List JdkDist) : List JdkDist × Option String :=
  match download_jdk_package fetch candidates with
  | (t, none) => (t, none)
  | (t, some d) =>
    match install d with
    | some hm => (t, some hm)
    | none =>
      let r := install_jdk_with_fallback fetch install [d] candidates
      (t ++ r.1, r.2)

/-! ## Orchestrator (`ValidationChain`, steps, `process_project`)

The chain runs over a per-project context; the machine-scope
configuration files touched by `ConfigurationStep` are carried in the
context as `world` so that "configuration was applied" is observable.
`Env` packs the process-wide oracles: detected platform strings, the
pre-existing installs on disk, and the network/extraction outcomes. -/

/-- The configuration files `ConfigurationStep` writes. -/
structure WorldConfig where
  toolchains : Option (List ToolchainEntry)
  settingsXmlExists : Bool
  vscode : String → Option JVal

/-- The `ProjectContext`.  `pomRaw` is the external part of
`parse_java_version_from_pom`: the first version-declaring value the
four XML lookup rules find in this project's descriptor (`none` when no
rule matches or the file is unparsable). -/
structure Ctx where
  pomRaw : Option String
  java_version : Option String
  os_name : Option String
  arch : Option String
  jdk_home : Option String
  maven_home : Option String
  maven_bin : Option String
  world : WorldConfig

/-- Process-wide environment oracles. -/
structure Env where
  sysOs : String
  machine : String
  home : String
  existingJdk : String → Option String
  existingMaven : String → String → Option (String × String)
  jdkFetch : JdkDist → Bool
  jdkInstall : JdkDist → Option String
  mavenArchive : Option ℕ
  mavenFetch : ℕ → AttemptResult
  mavenInstall : Option (String × String)

/-- The `detect_os_arch`: normalize `platform.system().lower()` and
`platform.machine().lower()`. -/
def detect_os_arch (env : Env) : String × String :=
  let sys_os := env.sysOs
  let os_name :=
    if strStartsWithL sys_os.data "win".data then "windows"
    else if strStartsWithL sys_os.data "darwin".data ∨ strStartsWithL sys_os.data "mac".data then
      "macos"
    else if strStartsWithL sys_os.data "linux".data then "linux"
    else sys_os
  let machine := env.machine
  let arch :=
    if machine = "x86_64" ∨ machine = "amd64" then "x86_64"
    else if machine = "aarch64" ∨ machine = "arm64" then "aarch64"
    else machine
  (os_name, arch)

/-- The `parse_java_version_from_pom`: the first matched raw value, fed
through `normalize_java_version`. -/
def parse_java_version_from_pom (pomRaw : Option String) : Option String :=
  pomRaw.bind normalize_java_version

/-- The `JavaVersionStep.execute`. -/
def javaVersionStep (ctx : Ctx) : Ctx × Bool :=
  match parse_java_version_from_pom ctx.pomRaw with
  | none => (ctx, false)
  | some v => ({ ctx with java_version := some v }, true)

/-- The `EnvironmentStep.execute`: record OS/arch, fail on unsupported
architecture, otherwise `ensure_dirs()` (a no-op on the modelled
state). -/
def environmentStep (env : Env) (ctx : Ctx) : Ctx × Bool :=
  let oa := detect_os_arch env
  let ctx' := { ctx with os_name := some oa.1, arch := some oa.2 }
  if ¬(oa.2 = "x86_64" ∨ oa.2 = "aarch64") then (ctx', false) else (ctx', true)

/-- The `download_maven_package`: resolve the distro for the OS, then fetch
(or reuse) the archive in the temp directory. -/
def download_maven_package (env : Env) (os_name : String) : Option (String × String) :=
  match _resolve_maven_distro os_name with
  | none => none
  | some ue =>
    if (_download_maven_distribution env.mavenFetch env.mavenArchive).1 then
      some ("apache-maven-" ++ DEFAULT_MAVEN_VERSION ++ "-bin." ++ ue.2, ue.2)
    else none

/-- The `RuntimeProvisionStep.execute`.  The two downloads are submitted to
a two-worker pool and both awaited before any install runs; the awaited
results are used strictly sequentially, which is what this sequential
definition computes. -/
def runtimeProvisionStep (env : Env) (ctx : Ctx) : Ctx × Bool :=
  match ctx.java_version, ctx.os_name, ctx.arch with
  | some v, some os, some arch =>
    let existing_jdk := env.existingJdk v
    let existing_maven := env.existingMaven v os
    let jdk_download : Option (List JdkDist × Option JdkDist) :=
      if existing_jdk.isNone then
        some (download_jdk_package env.jdkFetch (select_jdk_dist v os arch))
      else none
    let maven_download : Option (Option (String × String)) :=
      if existing_maven.isNone then some (download_maven_package env os) else none
    match existing_jdk, jdk_download with
    | none, some (_, none) => (ctx, false)
    | _, _ =>
      let jdk_home : Option String :=
        match existing_jdk with
        | some h => some h
        | none =>
          match jdk_download with
          | some (_, some d) =>
            (match env.jdkInstall d with
             | some h => some h
             | none =>
               (install_jdk_with_fallback env.jdkFetch env.jdkInstall [d]
                 (select_jdk_dist v os arch)).2)
          | _ => none
      match jdk_home with
      | none => (ctx, false)
      | some jh =>
        match existing_maven with
        | some mm =>
          ({ ctx with jdk_home := some jh, maven_home := some mm.1,
                      maven_bin := some mm.2 }, true)
        | none =>
          match maven_download with
          | some (some _) =>
            (match env.mavenInstall with
             | some mm =>
               ({ ctx with jdk_home := some jh, maven_home := some mm.1,
                           maven_bin := some mm.2 }, true)
             | none => (ctx, false))
          | _ => (ctx, false)
  | _, _, _ => (ctx, false)

/-- The `ConfigurationStep.execute`: merge the toolchains registry, ensure
the settings skeleton, merge the editor settings.  The toolchains and
settings-skeleton failures are caught in the source (warn, continue);
the model's merges are total. -/
def configurationStep (env : Env) (ctx : Ctx) : Ctx × Bool :=
  match ctx.java_version, ctx.jdk_home, ctx.maven_bin with
  | some v, some jh, some mb =>
    let w1 : WorldConfig :=
      { toolchains := some (merge_toolchains v jh ctx.world.toolchains),
        settingsXmlExists := true,
        vscode := update_vscode_settings env.home ctx.world.vscode jh mb }
    ({ ctx with world := w1 }, true)
  | _, _, _ => (ctx, false)

/-- A named chain step. -/
structure Step where
  description : String
  execute : Ctx → Ctx × Bool

/-- The `ValidationChain.run`: execute steps in order, stop at the first
failure.  Also returns the descriptions of the steps that ran (the
`[STEP]` log lines). -/
def ValidationChain_run : List Step → Ctx → List String × Ctx × Bool
  | [], ctx => ([], ctx, true)
  | s :: rest, ctx =>
    let r := s.execute ctx
    if r.2 then
      let t := ValidationChain_run rest r.1
      (s.description :: t.1, t.2)
    else ([s.description], r.1, false)

/-- The fixed pipeline of `process_project`. -/
def pipelineSteps (env : Env) : List Step :=
  [⟨"Detectando versão Java do pom.xml", javaVersionStep⟩,
   ⟨"Validando sistema e preparando diretórios", environmentStep env⟩,
   ⟨"Provisionando JDK e Maven", runtimeProvisionStep env⟩,
   ⟨"Aplicando configurações do ambiente", configurationStep env⟩]

/-- The `process_project` (the descriptor exists; its absence shortcuts
before the chain in the source). -/
def process_project (env : Env) (ctx : Ctx) : List String × Ctx × Bool :=
  ValidationChain_run (pipelineSteps env) ctx

/-- The per-project loop of `main`: every project is processed; a
failed or raising project is logged and the loop continues. -/
def process_projects (env : Env) (ps : List Ctx) : List (List String × Ctx × Bool) :=
  ps.map (process_project env)

/-! # Theorems -/

theorem isDigit_ne_dot {c : Char} (h : c.isDigit = true) : ¬(c = '.') := by
  intro he
  subst he
  exact absurd h (by decide)

theorem splitDot_ne_nil (xs : List Char) : splitDot xs ≠ [] := by
  induction xs with
  | nil => simp [splitDot]
  | cons c t ih =>
    by_cases hc : c = '.'
    · simp [splitDot, hc]
    · simp only [splitDot, if_neg hc]
      cases h : splitDot t with
      | nil => simp
      | cons a b => simp

theorem splitDot_append_nodot (N rest : List Char) (hN : ∀ c ∈ N, ¬(c = '.')) :
    splitDot (N ++ rest) = (N ++ (splitDot rest).headD []) :: (splitDot rest).tail := by
  induction N with
  | nil =>
    simp only [List.nil_append]
    cases h : splitDot rest with
    | nil => exact absurd h (splitDot_ne_nil rest)
    | cons a b => simp
  | cons c N' ih =>
    have hc : ¬(c = '.') := hN c (by simp)
    have hN' : ∀ x ∈ N', ¬(x = '.') := fun x hx => hN x (by simp [hx])
    simp only [List.cons_append, splitDot, if_neg hc, List.append_eq]
    rw [ih hN']

theorem splitDot_head_decomp (xs : List Char) :
    ∃ rest, xs = (splitDot xs).headD [] ++ rest ∧ (rest = [] ∨ ∃ r, rest = '.' :: r) ∧
      ∀ c ∈ (splitDot xs).headD [], ¬(c = '.') := by
  induction xs with
  | nil => exact ⟨[], by simp [splitDot], Or.inl rfl, by simp [splitDot]⟩
  | cons c t ih =>
    by_cases hc : c = '.'
    · refine ⟨c :: t, by simp [splitDot, hc], Or.inr ⟨t, by rw [hc]⟩, by simp [splitDot, hc]⟩
    · obtain ⟨rest, h1, h2, h3⟩ := ih
      cases h : splitDot t with
      | nil => exact absurd h (splitDot_ne_nil t)
      | cons a b =>
        rw [h] at h1 h3
        simp only [List.headD] at h1 h3
        refine ⟨rest, ?_, h2, ?_⟩
        · simp only [splitDot, if_neg hc, h, List.headD, List.cons_append]
          rw [← h1]
        · intro x hx
          simp only [splitDot, if_neg hc, h, List.headD] at hx
          rcases List.mem_cons.mp hx with hxc | hxa
          · rw [hxc]; exact hc
          · exact h3 x hxa

theorem leadingDigits2L_eq (w : List Char) :
    leadingDigits2L w =
      if w.takeWhile Char.isDigit = [] then none
      else some ((w.takeWhile Char.isDigit).take 2) := by
  cases w with
  | nil => simp [leadingDigits2L]
  | cons c t =>
    by_cases hc : c.isDigit
    · cases t with
      | nil => simp [leadingDigits2L, hc, List.takeWhile_cons]
      | cons d t' =>
        by_cases hd : d.isDigit
        · simp [leadingDigits2L, hc, hd, List.takeWhile_cons]
        · simp [leadingDigits2L, hc, hd, List.takeWhile_cons]
    · simp [leadingDigits2L, hc, List.takeWhile_cons]

theorem normalize_of_legacy (v : String) (N rest : List Char)
    (hw : pyStrip v.data = '1' :: '.' :: (N ++ rest)) (hN : isDigitRunL N = true)
    (hrest : rest = [] ∨ ∃ r, rest = '.' :: r) :
    normalize_java_version v = some (String.mk N) := by
  have hN' := hN
  unfold isDigitRunL at hN'
  simp at hN'
  have hnodot : ∀ c ∈ N, ¬(c = '.') := fun c hc => isDigit_ne_dot (hN'.2 c hc)
  have hsd : splitDot ('1' :: '.' :: (N ++ rest)) = ['1'] :: splitDot (N ++ rest) := by
    simp [splitDot]
  have hcomp : splitDot (N ++ rest) = (N ++ (splitDot rest).headD []) :: (splitDot rest).tail :=
    splitDot_append_nodot N rest hnodot
  have hhead : (splitDot rest).headD [] = [] := by
    rcases hrest with h | ⟨r, h⟩ <;> subst h <;> simp [splitDot]
  simp only [normalize_java_version, hw]
  rw [if_pos (by simp), hsd, hcomp, hhead, List.append_nil]
  simp [hN]

theorem normalize_of_not_legacy (v : String) (hleg : ¬ legacyForm (pyStrip v.data)) :
    normalize_java_version v =
      if (pyStrip v.data).takeWhile Char.isDigit = [] then none
      else some (String.mk (((pyStrip v.data).takeWhile Char.isDigit).take 2)) := by
  cases hw : pyStrip v.data with
  | nil => simp [normalize_java_version, hw, leadingDigits2L]
  | cons c1 t =>
    cases t with
    | nil =>
      simp only [normalize_java_version, hw]
      simp [leadingDigits2L_eq, apply_ite (Option.map String.mk)]
    | cons c2 t' =>
      by_cases h12 : c1 = '1' ∧ c2 = '.'
      · obtain ⟨h1, h2⟩ := h12
        subst h1
        subst h2
        have hsd : splitDot ('1' :: '.' :: t') = ['1'] :: splitDot t' := by
          simp [splitDot]
        cases hh : splitDot t' with
        | nil => exact absurd hh (splitDot_ne_nil t')
        | cons p rest' =>
          have hfall : isDigitRunL p = false := by
            by_contra hcon
            have hptrue : isDigitRunL p = true := by
              cases hb : isDigitRunL p
              · exact absurd hb hcon
              · rfl
            obtain ⟨rr, hdec, hrr, _⟩ := splitDot_head_decomp t'
            rw [hh] at hdec
            simp only [List.headD] at hdec
            exact hleg ⟨p, rr, by rw [hw, hdec], hptrue, hrr⟩
          simp only [normalize_java_version, hw]
          rw [if_pos (by simp), hsd, hh]
          simp only [List.get?]
          rw [hfall]
          simp [leadingDigits2L_eq, apply_ite (Option.map String.mk)]
      · simp only [normalize_java_version, hw]
        rw [if_neg h12]
        simp [leadingDigits2L_eq, apply_ite (Option.map String.mk)]

/-- C3 counterexample: the source caps the major version at the first
TWO digits (regex `^(\d{1,2})`), so a three-digit leading integer run is
not returned whole: `"123"` normalizes to `"12"`, not `"123"` as the
claim's "leading integer run" rule demands. -/
theorem normalize_java_version_counterexample :
    normalize_java_version "123" = some "12" ∧ ¬ normalize_java_version "123" = some "123" :=
  ⟨by decide, by decide⟩

/-- C3 (amended): `normalize_java_version` maps a stripped value whose
second dot-separated component is a nonempty digit run, after a leading
`1.`, to that component; otherwise it returns the first at most TWO
characters of the leading digit run; and it returns no-result exactly
when the stripped value has no leading digit. -/
theorem normalize_java_version_amended (v : String) :
    (∀ N rest, pyStrip v.data = '1' :: '.' :: (N ++ rest) → isDigitRunL N = true →
        (rest = [] ∨ ∃ r, rest = '.' :: r) →
        normalize_java_version v = some (String.mk N))
    ∧ (¬ legacyForm (pyStrip v.data) →
        normalize_java_version v =
          if (pyStrip v.data).takeWhile Char.isDigit = [] then none
          else some (String.mk (((pyStrip v.data).takeWhile Char.isDigit).take 2)))
    ∧ (normalize_java_version v = none ↔ (pyStrip v.data).takeWhile Char.isDigit = []) := by
  refine ⟨fun N rest hw hN hrest => normalize_of_legacy v N rest hw hN hrest,
    fun h => normalize_of_not_legacy v h, ?_⟩
  by_cases hL : legacyForm (pyStrip v.data)
  · obtain ⟨N, rest, hw, hN, hrest⟩ := hL
    rw [normalize_of_legacy v N rest hw hN hrest, hw]
    simp [List.takeWhile_cons]
  · rw [normalize_of_not_legacy v hL]
    by_cases htw : (pyStrip v.data).takeWhile Char.isDigit = [] <;> simp [htw]

/-- Witness for C3: the amended theorem applied at `"1.8"` and the
hypotheses discharged by evaluation. -/
theorem normalize_java_version_amended_witness :
    normalize_java_version "1.8" = some (String.mk ['8']) :=
  (normalize_java_version_amended "1.8").1 ['8'] [] (by decide) (by decide) (Or.inl rfl)

theorem strStartsWithL_append (h s : List Char) : strStartsWithL (h ++ s) h = true := by
  induction h with
  | nil => cases s <;> simp [strStartsWithL]
  | cons c t ih => simp [strStartsWithL, ih]

theorem string_mk_append (a b : String) : String.mk (a.data ++ b.data) = a ++ b := by
  cases a
  cases b
  rfl

/-- C9: the portable-placeholder rewriting is a plain string-prefix
replacement on the POSIX forms: any target whose string extends the home
string — whether or not it lies inside the home directory — is rewritten
to start with `${userHome}`; every other target is returned unchanged.
The third conjunct exhibits the sibling-directory case: `/home/username/x`
is not inside `/home/user` yet is rewritten. -/
theorem as_vscode_user_path_prefix_rewrite (home s t : String) :
    as_vscode_user_path home (home ++ s) = "${userHome}" ++ s
    ∧ (strStartsWithL t.data home.data = false → as_vscode_user_path home t = t)
    ∧ as_vscode_user_path "/home/user" "/home/username/x" = "${userHome}name/x" := by
  refine ⟨?_, fun h => by simp [as_vscode_user_path, h], by decide⟩
  have hdata : (home ++ s).data = home.data ++ s.data := rfl
  simp only [as_vscode_user_path, hdata, strStartsWithL_append, if_true]
  rw [List.drop_left]
  exact string_mk_append "${userHome}" s

/-- Witness for C9: a path outside the home prefix is unchanged. -/
theorem as_vscode_user_path_prefix_rewrite_witness :
    as_vscode_user_path "/home/user" "/opt/tool" = "/opt/tool" :=
  (as_vscode_user_path_prefix_rewrite "/home/user" "" "/opt/tool").2.1 (by decide)

/-- C4 counterexample: a pre-existing `java.home` key — which is not in
the documented key set — is NOT left unchanged: `update_vscode_settings`
pops it from the object. -/
theorem update_vscode_settings_counterexample :
    update_vscode_settings "/home/u"
        (fun k => if k = "java.home" then some (JVal.s "/old/jdk") else none)
        "/home/u/.jaenvtix/jdk-17/jdk-17.0.1" "/home/u/.jaenvtix/jdk-17/mvn-custom/bin/mvn"
        "java.home" = none
    ∧ (fun k => if k = "java.home" then some (JVal.s "/old/jdk") else none) "java.home"
        = some (JVal.s "/old/jdk") :=
  ⟨by decide, by decide⟩

/-- C4 (amended): `update_vscode_settings` assigns the six documented
keys PLUS the Lombok-support flag, REMOVES a pre-existing `java.home`
key, and leaves every other pre-existing key and its value unchanged. -/
theorem update_vscode_settings_amended (home : String) (data : String → Option JVal)
    (java_home maven_bin : String) :
    (∀ k, k ∉ vscodeAssignedKeys → k ≠ "java.home" →
      update_vscode_settings home data java_home maven_bin k = data k)
    ∧ update_vscode_settings home data java_home maven_bin "java.home" = none
    ∧ update_vscode_settings home data java_home maven_bin "java.jdt.ls.java.home"
        = some (JVal.s (as_vscode_user_path home java_home))
    ∧ update_vscode_settings home data java_home maven_bin "java.jdt.ls.lombokSupport.enabled"
        = some (JVal.b true)
    ∧ update_vscode_settings home data java_home maven_bin "maven.executable.preferMavenWrapper"
        = some (JVal.b true)
    ∧ update_vscode_settings home data java_home maven_bin "maven.executable.path"
        = some (JVal.s (as_vscode_user_path home maven_bin))
    ∧ update_vscode_settings home data java_home maven_bin "java.compile.nullAnalysis.mode"
        = some (JVal.s "automatic")
    ∧ update_vscode_settings home data java_home maven_bin
        "java.configuration.updateBuildConfiguration" = some (JVal.s "automatic")
    ∧ update_vscode_settings home data java_home maven_bin
        "java.configuration.maven.userSettings"
        = some (JVal.s (as_vscode_user_path home (home ++ "/.m2/settings.xml"))) := by
  refine ⟨?_, rfl, rfl, rfl, rfl, rfl, rfl, rfl, rfl⟩
  intro k hk hk2
  simp only [vscodeAssignedKeys, List.mem_cons, List.not_mem_nil, or_false] at hk
  push_neg at hk
  obtain ⟨h1, h2, h3, h4, h5, h6, h7⟩ := hk
  simp [update_vscode_settings, h1, h2, h3, h4, h5, h6, h7, hk2]

/-- Witness for C4: an unrelated pre-existing key keeps its value. -/
theorem update_vscode_settings_amended_witness :
    update_vscode_settings "/home/u"
        (fun k => if k = "editor.fontSize" then some (JVal.s "14") else none)
        "/j" "/m" "editor.fontSize" = some (JVal.s "14") :=
  ((update_vscode_settings_amended "/home/u"
      (fun k => if k = "editor.fontSize" then some (JVal.s "14") else none)
      "/j" "/m").1 "editor.fontSize" (by decide) (by decide)).trans (by decide)

theorem lookupEntry_append (l1 l2 : List DirEntry) (n : String) :
    lookupEntry (l1 ++ l2) n =
      (match lookupEntry l1 n with
       | some e => some e
       | none => lookupEntry l2 n) := by
  induction l1 with
  | nil => simp [lookupEntry]
  | cons e t ih =>
    by_cases he : e.name = n
    · simp [lookupEntry, List.find?_cons, he]
    · simpa [lookupEntry, List.find?_cons, he] using ih

theorem lookupEntry_cleanup_self (base : List DirEntry) :
    lookupEntry (_cleanup_old_jdk_content base) "mvn-custom" = lookupEntry base "mvn-custom" := by
  induction base with
  | nil => rfl
  | cons e t ih =>
    by_cases he : e.name = "mvn-custom"
    · simp [lookupEntry, _cleanup_old_jdk_content, List.filter_cons, List.find?_cons, he]
    · rw [_cleanup_old_jdk_content, List.filter_cons, if_neg (by simpa using he)]
      have hskip : lookupEntry (e :: t) "mvn-custom" = lookupEntry t "mvn-custom" := by
        simp [lookupEntry, List.find?_cons, he]
      rw [hskip]
      exact ih

theorem lookupEntry_cleanup_other (base : List DirEntry) (n : String) (hn : n ≠ "mvn-custom") :
    lookupEntry (_cleanup_old_jdk_content base) n = none := by
  rw [lookupEntry, List.find?_eq_none]
  intro x hx
  have hxname : x.name = "mvn-custom" := by
    have := (List.mem_filter.mp hx).2
    simpa using this
  simp only [hxname, decide_eq_true_eq]
  exact fun h => hn h.symm

/-- C7: before extracting a JDK, every pre-existing entry of the
per-version directory except `mvn-custom` is removed, and `mvn-custom`
is preserved unchanged; consequently, when the archive (which carries no
`mvn-custom` entry) is extracted, the resulting directory holds exactly
the archive's entries plus the untouched `mvn-custom` — the new JDK home
replaces any prior one instead of layering on top of it. -/
theorem install_jdk_replaces_old_content (base archive : List DirEntry) :
    lookupEntry (_cleanup_old_jdk_content base) "mvn-custom" = lookupEntry base "mvn-custom"
    ∧ (∀ n, n ≠ "mvn-custom" → lookupEntry (_cleanup_old_jdk_content base) n = none)
    ∧ (archive.all (fun a => ¬(a.name = "mvn-custom")) = true →
        lookupEntry (install_jdk_from_archive_fs base (some archive)).1 "mvn-custom"
          = lookupEntry base "mvn-custom"
        ∧ ∀ n, n ≠ "mvn-custom" →
            lookupEntry (install_jdk_from_archive_fs base (some archive)).1 n
              = lookupEntry archive n) := by
  refine ⟨lookupEntry_cleanup_self base, fun n hn => lookupEntry_cleanup_other base n hn, ?_⟩
  intro hna
  have hallm : ∀ a ∈ archive, ¬(a.name = "mvn-custom") := by
    intro a ha
    have := List.all_eq_true.mp hna a ha
    simpa using this
  have hfilter :
      List.filter (fun e => archive.all (fun a => decide (¬(a.name = e.name))))
          (_cleanup_old_jdk_content base) =
        _cleanup_old_jdk_content base := by
    rw [List.filter_eq_self]
    intro x hx
    have hxname : x.name = "mvn-custom" := by
      simpa using (List.mem_filter.mp hx).2
    rw [List.all_eq_true]
    intro a ha
    simp [hxname, hallm a ha]
  have hafter : (install_jdk_from_archive_fs base (some archive)).1 =
      _cleanup_old_jdk_content base ++ archive := by
    simp only [install_jdk_from_archive_fs, extractOverlay]
    rw [hfilter]
  have harc : lookupEntry archive "mvn-custom" = none := by
    rw [lookupEntry, List.find?_eq_none]
    intro x hx
    simp [hallm x hx]
  constructor
  · rw [hafter, lookupEntry_append, lookupEntry_cleanup_self base]
    cases h : lookupEntry base "mvn-custom" with
    | none => simpa using harc
    | some e => rfl
  · intro n hn
    rw [hafter, lookupEntry_append, lookupEntry_cleanup_other base n hn]

/-- Witness for C7: a stale JDK entry is gone after the re-install while
`mvn-custom` survives with identical content. -/
theorem install_jdk_replaces_old_content_witness :
    lookupEntry
        (install_jdk_from_archive_fs
          [⟨"jdk-old", true, true, 1⟩, ⟨"mvn-custom", true, false, 2⟩]
          (some [⟨"jdk-17.0.1", true, true, 3⟩])).1 "jdk-old" = none :=
  (((install_jdk_replaces_old_content
      [⟨"jdk-old", true, true, 1⟩, ⟨"mvn-custom", true, false, 2⟩]
      [⟨"jdk-17.0.1", true, true, 3⟩]).2.2 (by decide)).2 "jdk-old" (by decide)).trans
    (by decide)

/-- C6: the catalog lookup returns the static table's ordered list when
a static entry exists; otherwise it synthesizes, in order, the
same-vendor (Oracle) latest candidate — only for versions outside the
pinned set `{8, 11, 17}` — then Corretto, then Temurin, silently
skipping builders with no mapping for the OS/arch combination; and an
empty candidate list makes the acquirer fail immediately (hard failure
for the combination). -/
theorem select_jdk_dist_order (java_version os_name arch : String) (fetch : JdkDist → Bool) :
    (∀ l, JDK_URLS_get java_version os_name arch = some l → l ≠ [] →
        select_jdk_dist java_version os_name arch = l)
    ∧ (JDK_URLS_get java_version os_name arch = none →
        select_jdk_dist java_version os_name arch =
          (if java_version = "8" ∨ java_version = "11" ∨ java_version = "17" then []
           else (oracle_latest_dist? java_version os_name arch).toList)
          ++ (corretto_latest_dist? java_version os_name arch).toList
          ++ (temurin_latest_dist? java_version os_name arch).toList)
    ∧ (select_jdk_dist java_version os_name arch = [] →
        download_jdk_package fetch (select_jdk_dist java_version os_name arch) = ([], none)) := by
  refine ⟨?_, ?_, ?_⟩
  · intro l hl hne
    have hempty : l.isEmpty = false := by
      cases l with
      | nil => exact absurd rfl hne
      | cons a t => rfl
    simp [select_jdk_dist, hl, hempty]
  · intro h
    by_cases hv : java_version = "8" ∨ java_version = "11" ∨ java_version = "17" <;>
      simp [select_jdk_dist, h, hv]
  · intro h
    rw [h]
    rfl

/-- Witness for C6: an unpinned version with no static entry gets the
dynamically synthesized Oracle-Corretto-Temurin order. -/
theorem select_jdk_dist_order_witness :
    select_jdk_dist "19" "linux" "x86_64" =
      (oracle_latest_dist? "19" "linux" "x86_64").toList
      ++ (corretto_latest_dist? "19" "linux" "x86_64").toList
      ++ (temurin_latest_dist? "19" "linux" "x86_64").toList :=
  ((select_jdk_dist_order "19" "linux" "x86_64" (fun _ => false)).2.1 (by decide)).trans
    (by decide)

theorem sleeps_shift (b : ℚ) (i k : ℕ) :
    b ^ i :: (List.range k).map (fun t => b ^ (i + 1 + t)) =
      (List.range (k + 1)).map (fun t => b ^ (i + t)) := by
  rw [List.range_succ_eq_map]
  simp only [List.map_cons, List.map_map, Nat.add_zero]
  congr 1
  apply List.map_congr_left
  intro t ht
  simp only [Function.comp_apply]
  congr 1
  omega

theorem dwrGo_tried_le (outcome : ℕ → AttemptResult) (b : ℚ) :
    ∀ (k i : ℕ) (last : Option String) (dest : Option ℕ),
      (dwrGo outcome b k i last dest).tried ≤ k := by
  intro k
  induction k with
  | zero => intro i last dest; simp [dwrGo]
  | succ k ih =>
    intro i last dest
    simp only [dwrGo]
    cases h : outcome i with
    | ok s => simp
    | err m w => simpa using ih (i + 1) (some m) _

theorem dwrGo_all_fail (outcome : ℕ → AttemptResult) (b : ℚ) (msgs : ℕ → String)
    (wr : ℕ → Option ℕ) :
    ∀ (k i : ℕ) (last : Option String) (dest : Option ℕ),
      (∀ j, i ≤ j → j < i + k → outcome j = .err (msgs j) (wr j)) →
      (dwrGo outcome b k i last dest).success = false
      ∧ (dwrGo outcome b k i last dest).tried = k
      ∧ (dwrGo outcome b k i last dest).sleeps = (List.range k).map (fun t => b ^ (i + t))
      ∧ (dwrGo outcome b k i last dest).lastErr
          = (if k = 0 then last else some (msgs (i + k - 1))) := by
  intro k
  induction k with
  | zero => intro i last dest h; simp [dwrGo]
  | succ k ih =>
    intro i last dest h
    have hi : outcome i = .err (msgs i) (wr i) := h i le_rfl (by omega)
    simp only [dwrGo, hi]
    have hrec := ih (i + 1) (some (msgs i))
      (match wr i with | some w => some w | none => dest)
      (fun j hj1 hj2 => h j (by omega) (by omega))
    refine ⟨hrec.1, by simp [hrec.2.1], ?_, ?_⟩
    · simp only [hrec.2.2.1]
      exact sleeps_shift b i k
    · simp only [hrec.2.2.2]
      by_cases hk : k = 0
      · simp [hk]
      · simp only [if_neg hk, if_neg (Nat.succ_ne_zero k)]
        have harith : i + 1 + k - 1 = i + (k + 1) - 1 := by omega
        rw [harith]

theorem dwrGo_success (outcome : ℕ → AttemptResult) (b : ℚ) (msgs : ℕ → String)
    (wr : ℕ → Option ℕ) :
    ∀ (k i : ℕ) (last : Option String) (dest : Option ℕ) (j s : ℕ),
      i ≤ j → j < i + k → outcome j = .ok s →
      (∀ m, i ≤ m → m < j → outcome m = .err (msgs m) (wr m)) →
      (dwrGo outcome b k i last dest).success = true
      ∧ (dwrGo outcome b k i last dest).tried = j - i + 1
      ∧ (dwrGo outcome b k i last dest).sleeps
          = (List.range (j - i)).map (fun t => b ^ (i + t))
      ∧ (dwrGo outcome b k i last dest).dest = some s := by
  intro k
  induction k with
  | zero =>
    intro i last dest j s h1 h2 _ _
    exact absurd h2 (by omega)
  | succ k ih =>
    intro i last dest j s hij hjk hok herr
    by_cases hji : j = i
    · subst hji
      simp only [dwrGo, hok]
      simp [Nat.sub_self]
    · have hii : i < j := lt_of_le_of_ne hij (Ne.symm hji)
      have hi : outcome i = .err (msgs i) (wr i) := herr i le_rfl hii
      simp only [dwrGo, hi]
      have hrec := ih (i + 1) (some (msgs i))
        (match wr i with | some w => some w | none => dest) j s
        (by omega) (by omega) hok (fun m hm1 hm2 => herr m (by omega) hm2)
      refine ⟨hrec.1, ?_, ?_, hrec.2.2.2⟩
      · simp only [hrec.2.1]
        omega
      · simp only [hrec.2.2.1]
        have hsub : j - i = (j - (i + 1)) + 1 := by omega
        rw [hsub]
        exact sleeps_shift b i (j - (i + 1))

/-- C5 counterexample: the loop body sleeps after EVERY failed attempt,
including the last, so a fully failing run with the default 3 attempts
performs 3 sleeps, not `3 - 1 = 2` as the claim states. -/
theorem download_with_retries_counterexample :
    (download_with_retries (fun _ => .err "boom" (some 0)) none 3 (3 / 2)).success = false
    ∧ (download_with_retries (fun _ => .err "boom" (some 0)) none 3 (3 / 2)).sleeps.length = 3
    ∧ ¬((download_with_retries (fun _ => .err "boom" (some 0)) none 3 (3 / 2)).sleeps.length
        = 3 - 1) :=
  ⟨rfl, rfl, by simp [download_with_retries, dwrGo]⟩

/-- C5 (amended): the fetcher attempts sequentially at most `n` times,
sleeps `b^i` seconds after failed attempt `i` — including the final one,
so `n` sleeps on a fully failing run (≈1.5 s, 2.25 s, 3.375 s with the
defaults) — returns success as soon as one attempt succeeds (after
`j - 1` sleeps when attempt `j` is the first success), and returns
failure only after all `n` attempts are exhausted, reporting the last
observed error. -/
theorem download_with_retries_amended (outcome : ℕ → AttemptResult) (dest0 : Option ℕ)
    (n : ℕ) (b : ℚ) (msgs : ℕ → String) (wr : ℕ → Option ℕ) :
    ((download_with_retries outcome dest0 n b).tried ≤ n)
    ∧ ((∀ j, 1 ≤ j → j ≤ n → outcome j = .err (msgs j) (wr j)) →
        (download_with_retries outcome dest0 n b).success = false
        ∧ (download_with_retries outcome dest0 n b).tried = n
        ∧ (download_with_retries outcome dest0 n b).sleeps
            = (List.range n).map (fun t => b ^ (1 + t))
        ∧ (1 ≤ n → (download_with_retries outcome dest0 n b).lastErr = some (msgs n)))
    ∧ (∀ j s, 1 ≤ j → j ≤ n → outcome j = .ok s →
        (∀ m, 1 ≤ m → m < j → outcome m = .err (msgs m) (wr m)) →
        (download_with_retries outcome dest0 n b).success = true
        ∧ (download_with_retries outcome dest0 n b).tried = j
        ∧ (download_with_retries outcome dest0 n b).sleeps
            = (List.range (j - 1)).map (fun t => b ^ (1 + t))) := by
  refine ⟨dwrGo_tried_le outcome b n 1 none dest0, ?_, ?_⟩
  · intro h
    have hall := dwrGo_all_fail outcome b msgs wr n 1 none dest0
      (fun j hj1 hj2 => h j hj1 (by omega))
    refine ⟨hall.1, hall.2.1, hall.2.2.1, ?_⟩
    intro hn
    have h2 := hall.2.2.2
    rw [if_neg (by omega)] at h2
    show (dwrGo outcome b n 1 none dest0).lastErr = some (msgs n)
    rw [h2]
    have harith : 1 + n - 1 = n := by omega
    rw [harith]
  · intro j s hj1 hjn hok herr
    have hs := dwrGo_success outcome b msgs wr n 1 none dest0 j s hj1 (by omega) hok
      (fun m hm1 hm2 => herr m hm1 hm2)
    refine ⟨hs.1, ?_, hs.2.2.1⟩
    show (dwrGo outcome b n 1 none dest0).tried = j
    rw [hs.2.1]
    omega

/-- Witness for C5: a fully failing two-attempt run returns failure. -/
theorem download_with_retries_amended_witness :
    (download_with_retries (fun _ => .err "boom" none) none 2 2).success = false :=
  ((download_with_retries_amended (fun _ => .err "boom" none) none 2 2
      (fun _ => "boom") (fun _ => none)).2.1 (fun _ _ _ => rfl)).1

theorem install_fallback_go_none_iff (fetch : JdkDist → Bool) (install : JdkDist → Option String) :
    ∀ cands : List JdkDist,
      ((install_fallback_go fetch install cands).2 = none ↔
        ∀ d ∈ cands, fetch d = false ∨ install d = none) := by
  intro cands
  induction cands with
  | nil => simp [install_fallback_go]
  | cons d rest ih =>
    by_cases hf : fetch d = true
    · cases hi : install d with
      | some hm => simp [install_fallback_go, hf, hi]
      | none => simp [install_fallback_go, hf, hi, ih]
    · have hf' : fetch d = false := by
        cases hb : fetch d
        · rfl
        · exact absurd hb hf
      simp [install_fallback_go, hf', ih]

theorem install_fallback_go_trace (fetch : JdkDist → Bool) (install : JdkDist → Option String) :
    ∀ cands : List JdkDist,
      (install_fallback_go fetch install cands).2 = none →
      (install_fallback_go fetch install cands).1 = cands := by
  intro cands
  induction cands with
  | nil => intro _; rfl
  | cons d rest ih =>
    intro h
    by_cases hf : fetch d = true
    · cases hi : install d with
      | some hm => simp [install_fallback_go, hf, hi] at h
      | none =>
        have h' : (install_fallback_go fetch install rest).2 = none := by
          simpa [install_fallback_go, hf, hi] using h
        simp [install_fallback_go, hf, hi, ih h']
    · have hf' : fetch d = false := by
        cases hb : fetch d
        · rfl
        · exact absurd hb hf
      have h' : (install_fallback_go fetch install rest).2 = none := by
        simpa [install_fallback_go, hf'] using h
      simp [install_fallback_go, hf', ih h']

theorem fallback_skip_nil (cands : List JdkDist) :
    cands.filter (fun d => decide (d ∉ ([] : List JdkDist))) = cands := by
  rw [List.filter_eq_self]
  intro x _
  simp

/-- C2: the acquirer tries the catalog's candidates in order — a fetch
failure advances to the next candidate, an install failure after a
successful fetch also advances — and reports a hard failure only after
every candidate has been attempted (failure is equivalent to every
candidate failing, and the attempted trace is then the whole list).  In
the `[A, B, C]` scenario where `A` and `B` each fail (by fetch or by
install) and `C` succeeds, both the one-shot fallback runner and the
full `RuntimeProvisionStep` flow (initial download, install, fallback
with the failed candidate skipped) produce `C`'s home, and `C` is only
attempted after both `A` and `B`. -/
theorem install_jdk_with_fallback_order (fetch : JdkDist → Bool)
    (install : JdkDist → Option String) (cands : List JdkDist) (A B C : JdkDist) (hm : String)
    (hAB : A ≠ B) (hAC : A ≠ C) (hBC : B ≠ C)
    (hA : fetch A = false ∨ (fetch A = true ∧ install A = none))
    (hB : fetch B = false ∨ (fetch B = true ∧ install B = none))
    (hC : fetch C = true) (hCi : install C = some hm) :
    ((install_jdk_with_fallback fetch install [] cands).2 = none ↔
        ∀ d ∈ cands, fetch d = false ∨ install d = none)
    ∧ ((install_jdk_with_fallback fetch install [] cands).2 = none →
        (install_jdk_with_fallback fetch install [] cands).1 = cands)
    ∧ install_jdk_with_fallback fetch install [] [A, B, C] = ([A, B, C], some hm)
    ∧ (provision_jdk fetch install [A, B, C]).2 = some hm
    ∧ (∃ pre, (provision_jdk fetch install [A, B, C]).1 = pre ++ [C]
        ∧ A ∈ pre ∧ B ∈ pre ∧ C ∉ pre) := by
  have hCA : C ≠ A := Ne.symm hAC
  have hCB : C ≠ B := Ne.symm hBC
  have hBA : B ≠ A := Ne.symm hAB
  refine ⟨?_, ?_, ?_, ?_⟩
  · rw [install_jdk_with_fallback, fallback_skip_nil]
    exact install_fallback_go_none_iff fetch install cands
  · rw [install_jdk_with_fallback, fallback_skip_nil]
    exact install_fallback_go_trace fetch install cands
  · rw [install_jdk_with_fallback, fallback_skip_nil]
    rcases hA with hAf | ⟨hAt, hAi⟩
    · rcases hB with hBf | ⟨hBt, hBi⟩
      · simp [install_fallback_go, hAf, hBf, hC, hCi]
      · simp [install_fallback_go, hAf, hBt, hBi, hC, hCi]
    · rcases hB with hBf | ⟨hBt, hBi⟩
      · simp [install_fallback_go, hAt, hAi, hBf, hC, hCi]
      · simp [install_fallback_go, hAt, hAi, hBt, hBi, hC, hCi]
  · rcases hA with hAf | ⟨hAt, hAi⟩
    · rcases hB with hBf | ⟨hBt, hBi⟩
      · have hdl : download_jdk_package fetch [A, B, C] = ([A, B, C], some C) := by
          simp [download_jdk_package, hAf, hBf, hC]
        refine ⟨by simp [provision_jdk, hdl, hCi], [A, B], by simp [provision_jdk, hdl, hCi],
          by simp, by simp, by simp [hCA, hCB]⟩
      · have hdl : download_jdk_package fetch [A, B, C] = ([A, B], some B) := by
          simp [download_jdk_package, hAf, hBt]
        have hfil : [A, B, C].filter (fun d => decide (d ∉ [B])) = [A, C] := by
          simp [List.filter_cons, hAB, hCB]
        have hfb : install_jdk_with_fallback fetch install [B] [A, B, C] = ([A, C], some hm) := by
          rw [install_jdk_with_fallback, hfil]
          simp [install_fallback_go, hAf, hC, hCi]
        refine ⟨by simp [provision_jdk, hdl, hBi, hfb], [A, B, A],
          by simp [provision_jdk, hdl, hBi, hfb], by simp, by simp, by simp [hCA, hCB]⟩
    · rcases hB with hBf | ⟨hBt, hBi⟩
      · have hdl : download_jdk_package fetch [A, B, C] = ([A], some A) := by
          simp [download_jdk_package, hAt]
        have hfil : [A, B, C].filter (fun d => decide (d ∉ [A])) = [B, C] := by
          simp [List.filter_cons, hBA, hCA]
        have hfb : install_jdk_with_fallback fetch install [A] [A, B, C] = ([B, C], some hm) := by
          rw [install_jdk_with_fallback, hfil]
          simp [install_fallback_go, hBf, hC, hCi]
        refine ⟨by simp [provision_jdk, hdl, hAi, hfb], [A, B],
          by simp [provision_jdk, hdl, hAi, hfb], by simp, by simp, by simp [hCA, hCB]⟩
      · have hdl : download_jdk_package fetch [A, B, C] = ([A], some A) := by
          simp [download_jdk_package, hAt]
        have hfil : [A, B, C].filter (fun d => decide (d ∉ [A])) = [B, C] := by
          simp [List.filter_cons, hBA, hCA]
        have hfb : install_jdk_with_fallback fetch install [A] [A, B, C] = ([B, C], some hm) := by
          rw [install_jdk_with_fallback, hfil]
          simp [install_fallback_go, hBt, hBi, hC, hCi]
        refine ⟨by simp [provision_jdk, hdl, hAi, hfb], [A, B],
          by simp [provision_jdk, hdl, hAi, hfb], by simp, by simp, by simp [hCA, hCB]⟩

/-- Witness for C2: concrete candidates where `A` fails its fetch, `B`
fetches but fails to install, and `C` succeeds. -/
theorem install_jdk_with_fallback_order_witness :
    install_jdk_with_fallback (fun d => decide (¬(d.name = "A")))
        (fun d => if d.name = "C" then some "/home/u/.jaenvtix/jdk-19/jdk" else none) []
        [⟨"A", "uA", "zip"⟩, ⟨"B", "uB", "zip"⟩, ⟨"C", "uC", "zip"⟩]
      = ([⟨"A", "uA", "zip"⟩, ⟨"B", "uB", "zip"⟩, ⟨"C", "uC", "zip"⟩],
          some "/home/u/.jaenvtix/jdk-19/jdk") :=
  (install_jdk_with_fallback_order (fun d => decide (¬(d.name = "A")))
      (fun d => if d.name = "C" then some "/home/u/.jaenvtix/jdk-19/jdk" else none)
      [] ⟨"A", "uA", "zip"⟩ ⟨"B", "uB", "zip"⟩ ⟨"C", "uC", "zip"⟩
      "/home/u/.jaenvtix/jdk-19/jdk" (by decide) (by decide) (by decide)
      (Or.inl (by decide)) (Or.inr ⟨by decide, by decide⟩) (by decide) (by decide)).2.2.1

theorem countVersion_cons (e : ToolchainEntry) (t : List ToolchainEntry) (x : String) :
    countVersion (e :: t) x = (if e.version = some x then 1 else 0) + countVersion t x := by
  by_cases hv : e.version = some x <;>
    simp [countVersion, List.filter_cons, hv, Nat.add_comm]

theorem countVersion_append (l1 l2 : List ToolchainEntry) (x : String) :
    countVersion (l1 ++ l2) x = countVersion l1 x + countVersion l2 x := by
  simp [countVersion, List.filter_append]

theorem countVersion_eq_of_map_version :
    ∀ l1 l2 : List ToolchainEntry,
      l1.map (fun e => e.version) = l2.map (fun e => e.version) →
      ∀ x, countVersion l1 x = countVersion l2 x := by
  intro l1
  induction l1 with
  | nil =>
    intro l2 h x
    cases l2 with
    | nil => rfl
    | cons a t => simp at h
  | cons e t ih =>
    intro l2 h x
    cases l2 with
    | nil => simp at h
    | cons e2 t2 =>
      simp only [List.map_cons, List.cons.injEq] at h
      rw [countVersion_cons, countVersion_cons, h.1, ih t2 h.2 x]

theorem mergeEntries_none_iff (jv jh : String) :
    ∀ es : List ToolchainEntry,
      mergeEntries jv jh es = none ↔ ∀ e ∈ es, tcMatches jv e = false ∨ e.config = none := by
  intro es
  induction es with
  | nil => simp [mergeEntries]
  | cons e rest ih =>
    by_cases hm : tcMatches jv e = true
    · cases hc : e.config with
      | some c => simp [mergeEntries, hm, hc]
      | none => simp [mergeEntries, hm, hc, ih]
    · have hm' : tcMatches jv e = false := by
        cases hb : tcMatches jv e
        · rfl
        · exact absurd hb hm
      simp [mergeEntries, hm', ih]

theorem mergeEntries_some_decomp (jv jh : String) :
    ∀ (es es' : List ToolchainEntry), mergeEntries jv jh es = some es' →
      ∃ pre e post, es = pre ++ e :: post
        ∧ es' = pre ++ { e with config := some (some jh) } :: post
        ∧ tcMatches jv e = true ∧ e.config ≠ none
        ∧ ∀ p ∈ pre, tcMatches jv p = false ∨ p.config = none := by
  intro es
  induction es with
  | nil => intro es' h; simp [mergeEntries] at h
  | cons e rest ih =>
    intro es' h
    by_cases hm : tcMatches jv e = true
    · cases hc : e.config with
      | some c =>
        simp only [mergeEntries, hm, hc, if_true, Option.some.injEq] at h
        exact ⟨[], e, rest, by simp, by simp [← h], hm, by simp [hc], by simp⟩
      | none =>
        simp only [mergeEntries, hm, hc, if_true, Option.map_eq_some'] at h
        obtain ⟨a, ha, hcons⟩ := h
        obtain ⟨pre, e0, post, h1, h2, h3, h4, h5⟩ := ih a ha
        refine ⟨e :: pre, e0, post, by simp [h1], by simp [← hcons, h2], h3, h4, ?_⟩
        intro p hp
        rcases List.mem_cons.mp hp with hpe | hpp
        · exact Or.inr (by rw [hpe, hc])
        · exact h5 p hpp
    · have hm' : tcMatches jv e = false := by
        cases hb : tcMatches jv e
        · rfl
        · exact absurd hb hm
      simp only [mergeEntries, hm', Bool.false_eq_true, if_false, Option.map_eq_some'] at h
      obtain ⟨a, ha, hcons⟩ := h
      obtain ⟨pre, e0, post, h1, h2, h3, h4, h5⟩ := ih a ha
      refine ⟨e :: pre, e0, post, by simp [h1], by simp [← hcons, h2], h3, h4, ?_⟩
      intro p hp
      rcases List.mem_cons.mp hp with hpe | hpp
      · exact Or.inl (by rw [hpe]; exact hm')
      · exact h5 p hpp

theorem tcMatches_eq_version (jv : String) (e : ToolchainEntry)
    (hwf : ∃ v, e.version = some v ∧ pyStripS v = v) :
    tcMatches jv e = true ↔ e.version = some jv := by
  obtain ⟨v, hv, hvt⟩ := hwf
  simp only [tcMatches, hv, hvt, decide_eq_true_eq, Option.some.injEq]

theorem template_TcInv (jv jh : String) (hjv : pyStripS jv = jv) :
    TcInv [tcTemplate jv jh] := by
  constructor
  · intro e he
    have : e = tcTemplate jv jh := by simpa using he
    subst this
    exact ⟨⟨jv, rfl, hjv⟩, by simp [tcTemplate]⟩
  · intro x
    by_cases hx : (some jv : Option String) = some x <;>
      simp [countVersion, tcTemplate, List.filter, hx]

theorem merge_preserves_TcInv (jv jh : String) (hjv : pyStripS jv = jv)
    (es : List ToolchainEntry) (hinv : TcInv es) :
    TcInv (merge_toolchains jv jh (some es)) := by
  obtain ⟨hwf, hcnt⟩ := hinv
  cases h : mergeEntries jv jh es with
  | some es' =>
    simp only [merge_toolchains, h]
    obtain ⟨pre, e, post, h1, h2, h3, h4, h5⟩ := mergeEntries_some_decomp jv jh es es' h
    constructor
    · intro x hx
      rw [h2] at hx
      rcases List.mem_append.mp hx with hxp | hxc
      · exact hwf x (by rw [h1]; exact List.mem_append.mpr (Or.inl hxp))
      · rcases List.mem_cons.mp hxc with hxe | hxpost
        · subst hxe
          refine ⟨(hwf e (by rw [h1]; simp)).1, by simp⟩
        · exact hwf x (by rw [h1]; exact List.mem_append.mpr (Or.inr (List.mem_cons.mpr (Or.inr hxpost))))
    · intro x
      have hmap : es'.map (fun e => e.version) = es.map (fun e => e.version) := by
        rw [h1, h2]
        simp
      rw [countVersion_eq_of_map_version es' es hmap x]
      exact hcnt x
  | none =>
    simp only [merge_toolchains, h]
    have hnone := (mergeEntries_none_iff jv jh es).mp h
    constructor
    · intro x hx
      rcases List.mem_append.mp hx with hxe | hxt
      · exact hwf x hxe
      · have : x = tcTemplate jv jh := by simpa using hxt
        subst this
        exact ⟨⟨jv, rfl, hjv⟩, by simp [tcTemplate]⟩
    · intro x
      rw [countVersion_append]
      by_cases hx : x = jv
      · subst hx
        have hzero : countVersion es x = 0 := by
          rw [countVersion, List.length_eq_zero, List.filter_eq_nil_iff]
          intro e he
          rcases hnone e he with hfalse | hcfg
          · obtain ⟨v, hv, hvt⟩ := (hwf e he).1
            simp only [tcMatches, hv, hvt, decide_eq_true_eq] at hfalse
            simp [hv, hfalse]
          · exact absurd hcfg (hwf e he).2
        rw [hzero]
        simp [countVersion, tcTemplate, List.filter]
      · have hne : ¬((tcTemplate jv jh).version = some x) := by
          simp only [tcTemplate, Option.some.injEq]
          exact fun h => hx h.symm
        have hone : countVersion [tcTemplate jv jh] x = 0 := by
          simp [countVersion, List.filter_cons, hne]
        rw [hone]
        simpa using hcnt x

theorem foldl_merge_inv :
    ∀ (calls : List (String × String)) (st : Option (List ToolchainEntry)),
      (∀ p ∈ calls, pyStripS p.1 = p.1) →
      (∀ es0, st = some es0 → TcInv es0) →
      ∀ es, calls.foldl (fun acc c => some (merge_toolchains c.1 c.2 acc)) st = some es →
        TcInv es := by
  intro calls
  induction calls with
  | nil =>
    intro st _ hst es h
    exact hst es (by simpa using h)
  | cons c rest ih =>
    intro st hcalls hst es h
    have hc1 : pyStripS c.1 = c.1 := hcalls c (by simp)
    refine ih (some (merge_toolchains c.1 c.2 st))
      (fun p hp => hcalls p (by simp [hp])) ?_ es (by simpa using h)
    intro es0 he0
    have he0' : es0 = merge_toolchains c.1 c.2 st := by
      injection he0 with h2
      exact h2.symm
    subst he0'
    cases st with
    | none =>
      simpa [merge_toolchains] using template_TcInv c.1 c.2 hc1
    | some es1 =>
      exact merge_preserves_TcInv c.1 c.2 hc1 es1 (hst es1 rfl)

theorem runMerges_some_inv (calls : List (String × String))
    (hcalls : ∀ p ∈ calls, pyStripS p.1 = p.1) :
    ∀ es, runMerges calls = some es → TcInv es := by
  intro es h
  exact foldl_merge_inv calls none hcalls (fun es0 h0 => by cases h0) es h

/-- C1: starting from a nonexistent registry, any sequence of
`merge_toolchains` calls (with the trimmed major-version keys the
callers pass) keeps at most one `<toolchain>` entry per version.
Merging into a nonexistent file writes the single-entry template
document; merging a version that already has an entry updates that
entry's `jdkHome` in place — same number of entries, same version list,
and the entry for the version now carries the new home — and merging a
version with no matching entry appends exactly one new entry. -/
theorem merge_toolchains_one_entry_per_version (calls : List (String × String))
    (hcalls : ∀ p ∈ calls, pyStripS p.1 = p.1) (jv jh : String) :
    (∀ x, countVersion ((runMerges calls).getD []) x ≤ 1)
    ∧ merge_toolchains jv jh none = [tcTemplate jv jh]
    ∧ ∀ es, runMerges calls = some es →
        (countVersion es jv = 1 →
          (merge_toolchains jv jh (some es)).length = es.length
          ∧ (merge_toolchains jv jh (some es)).map (fun e => e.version)
              = es.map (fun e => e.version)
          ∧ (merge_toolchains jv jh (some es)).filter (fun e => decide (e.version = some jv))
              = [tcTemplate jv jh])
        ∧ (countVersion es jv = 0 →
          merge_toolchains jv jh (some es) = es ++ [tcTemplate jv jh]) := by
  refine ⟨?_, rfl, ?_⟩
  · intro x
    cases hr : runMerges calls with
    | none => simp [countVersion]
    | some es =>
      simpa using (runMerges_some_inv calls hcalls es hr).2 x
  · intro es hes
    obtain ⟨hwf, hcnt⟩ := runMerges_some_inv calls hcalls es hes
    constructor
    · intro hone
      have hex : ∃ e ∈ es, e.version = some jv := by
        by_contra hno
        push_neg at hno
        have hz : countVersion es jv = 0 := by
          rw [countVersion, List.length_eq_zero, List.filter_eq_nil_iff]
          intro a ha
          simpa using hno a ha
        omega
      obtain ⟨e1, he1, hv1⟩ := hex
      cases hm : mergeEntries jv jh es with
      | none =>
        exfalso
        rcases (mergeEntries_none_iff jv jh es).mp hm e1 he1 with hfalse | hcfg
        · have htrue : tcMatches jv e1 = true :=
            (tcMatches_eq_version jv e1 (hwf e1 he1).1).mpr hv1
          rw [htrue] at hfalse
          cases hfalse
        · exact (hwf e1 he1).2 hcfg
      | some es' =>
        simp only [merge_toolchains, hm]
        obtain ⟨pre, e, post, h1, h2, h3, h4, h5⟩ := mergeEntries_some_decomp jv jh es es' hm
        have hemem : e ∈ es := by
          rw [h1]
          simp
        have hev : e.version = some jv := (tcMatches_eq_version jv e (hwf e hemem).1).mp h3
        have hupd : { e with config := some (some jh) } = tcTemplate jv jh := by
          obtain ⟨v0, c0⟩ := e
          simp only [] at hev
          simp [tcTemplate, hev]
        refine ⟨?_, ?_, ?_⟩
        · rw [h1, h2]
          simp
        · rw [h1, h2]
          simp
        · rw [h2, hupd, List.filter_append, List.filter_cons]
          have hprefilter :
              pre.filter (fun e => decide (e.version = some jv)) = [] := by
            rw [List.filter_eq_nil_iff]
            intro p hp
            have hpmem : p ∈ es := by
              rw [h1]
              exact List.mem_append.mpr (Or.inl hp)
            rcases h5 p hp with hfalse | hcfg
            · have := (tcMatches_eq_version jv p (hwf p hpmem).1)
              simp only [decide_eq_true_eq]
              intro hpv
              rw [this.mpr hpv] at hfalse
              cases hfalse
            · exact absurd hcfg (hwf p hpmem).2
          have hpostfilter :
              post.filter (fun e => decide (e.version = some jv)) = [] := by
            have hsplit : countVersion es jv
                = countVersion pre jv + countVersion (e :: post) jv := by
              rw [h1, countVersion_append]
            rw [countVersion_cons, if_pos hev] at hsplit
            have hprez : countVersion pre jv = 0 := by
              rw [countVersion, hprefilter]
              rfl
            have hpostz : countVersion post jv = 0 := by omega
            rw [countVersion, List.length_eq_zero] at hpostz
            exact hpostz
          rw [hprefilter, hpostfilter, if_pos (by simp [tcTemplate])]
          rfl
    · intro hzero
      have hna : mergeEntries jv jh es = none := by
        rw [mergeEntries_none_iff]
        intro e he
        left
        have hne : ¬(e.version = some jv) := by
          intro hv
          have hmem : e ∈ es.filter (fun e => decide (e.version = some jv)) :=
            List.mem_filter.mpr ⟨he, by simp [hv]⟩
          have hpos : 0 < countVersion es jv := by
            rw [countVersion]
            exact List.length_pos_of_mem hmem
          omega
        obtain ⟨v, hv, hvt⟩ := (hwf e he).1
        have hvne : ¬(v = jv) := fun hh => hne (by rw [hv, hh])
        simp [tcMatches, hv, hvt, hvne]
      simp [merge_toolchains, hna]

/-- Witness for C1: two merges of version 17 leave a single entry. -/
theorem merge_toolchains_one_entry_per_version_witness :
    countVersion ((runMerges [("17", "/a"), ("17", "/b")]).getD []) "17" ≤ 1 :=
  (merge_toolchains_one_entry_per_version [("17", "/a"), ("17", "/b")]
    (by decide) "17" "/c").1 "17"

theorem dwrGo_all_fail_dest (outcome : ℕ → AttemptResult) (b : ℚ) (msgs : ℕ → String)
    (wr : ℕ → Option ℕ) :
    ∀ (k i : ℕ) (last : Option String) (dest : Option ℕ) (w : ℕ),
      (∀ j, i ≤ j → j < i + k → outcome j = .err (msgs j) (wr j)) →
      1 ≤ k → wr (i + k - 1) = some w →
      (dwrGo outcome b k i last dest).dest = some w := by
  intro k
  induction k with
  | zero =>
    intro i last dest w _ hk _
    omega
  | succ k ih =>
    intro i last dest w h hk hw
    have hi : outcome i = .err (msgs i) (wr i) := h i le_rfl (by omega)
    simp only [dwrGo, hi]
    by_cases hk0 : k = 0
    · subst hk0
      rw [Nat.add_sub_cancel] at hw
      simp [dwrGo, hw]
    · have hw' : wr (i + 1 + k - 1) = some w := by
        have harith : i + 1 + k - 1 = i + (k + 1) - 1 := by omega
        rw [harith]
        exact hw
      exact ih (i + 1) (some (msgs i))
        (match wr i with | some ww => some ww | none => dest) w
        (fun j hj1 hj2 => h j (by omega) (by omega)) (by omega) hw'

/-- C10: after a failed run the fetcher leaves the destination file in
whatever state the last attempt left it — nothing deletes or truncates
it once an attempt has failed — so a non-empty partial file can remain
at the destination when failure is returned; and the build-tool download
path treats any pre-existing non-empty destination file as already
fetched, returning success without touching the network and without
validating the content. -/
theorem fetch_partial_survives_and_is_reused (outcome : ℕ → AttemptResult)
    (msgs : ℕ → String) (wr : ℕ → Option ℕ) (n w s : ℕ) :
    ((∀ j, 1 ≤ j → j ≤ n → outcome j = .err (msgs j) (wr j)) → 1 ≤ n → wr n = some w →
        (download_with_retries outcome none n (3 / 2)).success = false
        ∧ (download_with_retries outcome none n (3 / 2)).dest = some w)
    ∧ (0 < s → _download_maven_distribution outcome (some s) = (true, false, some s)) := by
  constructor
  · intro h hn hw
    refine ⟨(dwrGo_all_fail outcome (3 / 2) msgs wr n 1 none none
      (fun j hj1 hj2 => h j hj1 (by omega))).1, ?_⟩
    have hw' : wr (1 + n - 1) = some w := by
      have harith : 1 + n - 1 = n := by omega
      rw [harith]
      exact hw
    exact dwrGo_all_fail_dest outcome (3 / 2) msgs wr n 1 none none w
      (fun j hj1 hj2 => h j hj1 (by omega)) hn hw'
  · intro hs
    simp [_download_maven_distribution, hs]

/-- Witness for C10: three failing attempts leave a 5-byte partial file,
and the maven path then reuses such a file without fetching. -/
theorem fetch_partial_survives_and_is_reused_witness :
    (download_with_retries (fun _ => .err "reset" (some 5)) none 3 (3 / 2)).dest = some 5
    ∧ _download_maven_distribution (fun _ => .err "reset" (some 5)) (some 5)
        = (true, false, some 5) :=
  ⟨((fetch_partial_survives_and_is_reused (fun _ => .err "reset" (some 5))
      (fun _ => "reset") (fun _ => some 5) 3 5 5).1 (fun _ _ _ => rfl) (by decide) rfl).2,
   (fetch_partial_survives_and_is_reused (fun _ => .err "reset" (some 5))
      (fun _ => "reset") (fun _ => some 5) 3 5 5).2 (by decide)⟩

theorem ValidationChain_run_take :
    ∀ (steps : List Step) (ctx : Ctx),
      ValidationChain_run steps ctx
        = ValidationChain_run (steps.take (ValidationChain_run steps ctx).1.length) ctx
      ∧ (ValidationChain_run steps ctx).1.length ≤ steps.length := by
  intro steps
  induction steps with
  | nil => intro ctx; exact ⟨rfl, le_rfl⟩
  | cons s rest ih =>
    intro ctx
    by_cases h2 : (s.execute ctx).2 = true
    · have hrec := ih (s.execute ctx).1
      have hrun : ValidationChain_run (s :: rest) ctx
          = (s.description :: (ValidationChain_run rest (s.execute ctx).1).1,
             (ValidationChain_run rest (s.execute ctx).1).2) := by
        simp [ValidationChain_run, h2]
      constructor
      · rw [hrun]
        simp only [List.length_cons, List.take_succ_cons]
        have hrun2 : ValidationChain_run
            (s :: rest.take (ValidationChain_run rest (s.execute ctx).1).1.length) ctx
            = (s.description ::
                (ValidationChain_run
                  (rest.take (ValidationChain_run rest (s.execute ctx).1).1.length)
                  (s.execute ctx).1).1,
               (ValidationChain_run
                  (rest.take (ValidationChain_run rest (s.execute ctx).1).1.length)
                  (s.execute ctx).1).2) := by
          simp [ValidationChain_run, h2]
        rw [hrun2, ← hrec.1]
      · rw [hrun]
        simp only [List.length_cons]
        exact Nat.succ_le_succ hrec.2
    · have h2' : (s.execute ctx).2 = false := by
        cases hb : (s.execute ctx).2
        · rfl
        · exact absurd hb h2
      have hrun : ValidationChain_run (s :: rest) ctx
          = ([s.description], (s.execute ctx).1, false) := by
        simp [ValidationChain_run, h2']
      constructor
      · rw [hrun]
        have hrun1 : ValidationChain_run ((s :: rest).take 1) ctx
            = ([s.description], (s.execute ctx).1, false) := by
          simp [ValidationChain_run, h2']
        rw [List.length_singleton, hrun1]
      · rw [hrun]
        simp

theorem select_jdk_dist_unsupported_os (v os arch : String)
    (h1 : ¬os = "windows") (h2 : ¬os = "linux") (h3 : ¬os = "macos") :
    select_jdk_dist v os arch = [] := by
  have hcombo : (os, arch) ∉ staticCombos := by
    simp [staticCombos, Prod.ext_iff, h1, h2, h3]
  simp [select_jdk_dist, JDK_URLS_get, hcombo, oracle_latest_dist?, oracle_latest_url,
    corretto_latest_dist?, corretto_latest_url, temurin_latest_dist?, temurin_latest_url,
    h1, h2, h3]

/-- C8: on an unsupported architecture the environment step fails, and
on an unsupported OS (with a supported architecture and no pre-existing
install on disk) the runtime-provisioning step fails because the catalog
is empty; in both cases the chain for the project returns failure, the
configuration step never runs (its `[STEP]` line is absent from the
executed-step trace and the configuration files are untouched).
Generally, a chain run is fully determined by the steps up to and
including the first failing one — later steps never run — and the
per-project loop processes every project independently. -/
theorem chain_stops_on_unsupported (env : Env) (ctx0 : Ctx) (ps : List Ctx)
    (hunsup :
      (¬((detect_os_arch env).2 = "x86_64" ∨ (detect_os_arch env).2 = "aarch64"))
      ∨ (¬(detect_os_arch env).1 = "windows" ∧ ¬(detect_os_arch env).1 = "linux"
          ∧ ¬(detect_os_arch env).1 = "macos"
          ∧ ((detect_os_arch env).2 = "x86_64" ∨ (detect_os_arch env).2 = "aarch64")
          ∧ (∀ v, env.existingJdk v = none))) :
    ((process_project env ctx0).2.2 = false
      ∧ (process_project env ctx0).2.1.world = ctx0.world
      ∧ ¬("Aplicando configurações do ambiente" ∈ (process_project env ctx0).1))
    ∧ (∀ steps c, ValidationChain_run steps c
        = ValidationChain_run (steps.take (ValidationChain_run steps c).1.length) c
        ∧ (ValidationChain_run steps c).1.length ≤ steps.length)
    ∧ process_projects env ps = ps.map (process_project env) := by
  refine ⟨?_, fun steps c => ValidationChain_run_take steps c, rfl⟩
  cases hj : parse_java_version_from_pom ctx0.pomRaw with
  | none =>
    refine ⟨?_, ?_, ?_⟩ <;>
      simp [process_project, pipelineSteps, ValidationChain_run, javaVersionStep, hj]
  | some v =>
    rcases hunsup with harch | ⟨hos1, hos2, hos3, harch, hjdk⟩
    · refine ⟨?_, ?_, ?_⟩ <;>
        simp [process_project, pipelineSteps, ValidationChain_run, javaVersionStep, hj,
          environmentStep, harch]
    · have hsel : select_jdk_dist v (detect_os_arch env).1 (detect_os_arch env).2 = [] :=
        select_jdk_dist_unsupported_os v _ _ hos1 hos2 hos3
      refine ⟨?_, ?_, ?_⟩ <;>
        simp [process_project, pipelineSteps, ValidationChain_run, javaVersionStep, hj,
          environmentStep, harch, runtimeProvisionStep, hjdk, hsel, download_jdk_package]

/-- Witness for C8: an unsupported OS with supported hardware and an
empty installation root fails before any configuration is applied. -/
theorem chain_stops_on_unsupported_witness :
    (process_project
        ⟨"freebsd", "x86_64", "/home/u", fun _ => none, fun _ _ => none, fun _ => false,
          fun _ => none, none, fun _ => .err "e" none, none⟩
        ⟨some "17", none, none, none, none, none, none, none, false, fun _ => none⟩).2.2
      = false :=
  ((chain_stops_on_unsupported
      ⟨"freebsd", "x86_64", "/home/u", fun _ => none, fun _ _ => none, fun _ => false,
        fun _ => none, none, fun _ => .err "e" none, none⟩
      ⟨some "17", none, none, none, none, none, none, none, false, fun _ => none⟩ []
      (Or.inr ⟨by decide, by decide, by decide, Or.inl (by decide), fun _ => rfl⟩)).1).1

end Jaenvtix
